import Mathlib

/-!
Shallow embedding of the Bear repository fragment:
  - src/source/citnames/source/Application.cc
  - src/source/intercept/source/collect/SessionLibrary.cc
Pure functions of the source are translated to Lean definitions; external
collaborators (filesystem, event-log reader, JSON database serializer,
semantic recognizer) are either parameters of the embedded functions or,
where a claim depends on their behaviour, modelled from the specification
(each such definition is marked `Modelled from the spec:`).
-/

namespace Bear

/-- Error value standing for the `std::runtime_error` payload carried by
`rust::Result` errors in the source. -/
structure Err where
  message : String
deriving DecidableEq

/-- `rust::Result<T>` from the source, shallowly embedded as `Except`. -/
abbrev R (α : Type) : Type := Except Err α

/-- `rust::Result::unwrap_or`: the value on `Ok`, the default on `Err`. -/
def R.unwrap_or {α : Type} (r : R α) (d : α) : α :=
  match r with
  | .ok v => v
  | .error _ => d

/-- `rust::merge` of two results: the tuple when both are `Ok`, otherwise the
first error encountered (modelling the libresult helper used by the source). -/
def rmerge {α β : Type} (a : R α) (b : R β) : R (α × β) :=
  match a, b with
  | .ok x, .ok y => .ok (x, y)
  | .error e, _ => .error e
  | .ok _, .error e => .error e

/-- `std::map<std::string, std::string>` used for process environments,
embedded as a partial key-to-value function. -/
abbrev Env : Type := String → Option String

/-- `map[key] = value`: update the environment at one key. -/
def envSet (e : Env) (k v : String) : Env :=
  fun q => if q = k then some v else e q

/-! ### SessionLibrary.cc -/

/-- `GLIBC_PRELOAD_KEY` from SessionLibrary.cc. -/
def GLIBC_PRELOAD_KEY : String := "LD_PRELOAD"

/-- Modelled from the spec: `el::env::KEY_VERBOSE`, the reserved verbose-flag
environment variable (its header is not part of the shown sources). -/
def KEY_VERBOSE : String := "INTERCEPT_VERBOSE"

/-- Modelled from the spec: `el::env::KEY_DESTINATION`, the reserved
session-locator environment variable. -/
def KEY_DESTINATION : String := "INTERCEPT_REPORT_DESTINATION"

/-- Modelled from the spec: `el::env::KEY_REPORTER`, the reserved reporter
(executor path) environment variable. -/
def KEY_REPORTER : String := "INTERCEPT_REPORT_COMMAND"

/-- Join path components with the `:` separator. -/
def joinPaths : List String → String
  | [] => ""
  | [p] => p
  | p :: rest => p ++ ":" ++ joinPaths rest

/-- Modelled from the spec: `Session::keep_front_in_path` (defined in a source
file not shown) keeps the given item at the front of a colon-separated list:
the item is placed first and prior occurrences of it are dropped. -/
def keep_front_in_path (item current : String) : String :=
  joinPaths (item :: (current.splitOn ":").filter (fun s => s != item && s != ""))

/-- `ic::LibraryPreloadSession`: the fields set by its constructor together
with the session locator owned by the base `Session`. -/
structure LibraryPreloadSession where
  verbose_ : Bool
  library_ : String
  executor_ : String
  session_locator_ : String

/-- `LibraryPreloadSession::update` on a `std::map` environment: copy the map,
set the verbose key when verbose, the destination key to the session locator,
the reporter key to the executor, and re-apply the preload library at the
front of the previous `LD_PRELOAD` value (empty when absent). -/
def LibraryPreloadSession.update (self : LibraryPreloadSession) (env : Env) : Env :=
  let copy1 := if self.verbose_ then envSet env KEY_VERBOSE "true" else env
  let copy2 := envSet copy1 KEY_DESTINATION self.session_locator_
  let copy3 := envSet copy2 KEY_REPORTER self.executor_
  envSet copy3 GLIBC_PRELOAD_KEY
    (keep_front_in_path self.library_ ((copy3 GLIBC_PRELOAD_KEY).getD ""))

/-- `rpc::Execution`: the execution record fields used by the session. -/
structure Execution where
  executable : String
  arguments : List String
  working_dir : String
  environment : Env

/-- `LibraryPreloadSession::resolve`: copy the execution, update its
environment, and return it as `Ok`. -/
def LibraryPreloadSession.resolve
    (self : LibraryPreloadSession) (execution : Execution) : R Execution :=
  .ok { execution with environment := self.update execution.environment }

/-! ### Application.cc: arguments and configuration -/

/-- The parsed command-line flags consumed by citnames, embedded as the
results the `flags::Arguments` accessors return for each flag. -/
structure FlagsArguments where
  input : R String
  output : R String
  append : R Bool
  config : R String
  run_checks : R Bool

/-- `cs::Arguments`. -/
structure Arguments where
  input : String
  output : String
  append : Bool
deriving DecidableEq

/-- `is_exists`: filesystem existence, embedded as an oracle predicate
`fsys` over paths. -/
def is_exists (fsys : String → Bool) (path : String) : Bool := fsys path

/-- `into_arguments` from Application.cc: merge the input and output flag
values, default `append` to false, fail when the input file does not exist,
and degrade `append` to the existence of the output file. -/
def into_arguments (fsys : String → Bool) (args : FlagsArguments) : R Arguments :=
  let append := args.append.unwrap_or false
  (rmerge args.input args.output).bind
    (fun t =>
      if is_exists fsys t.1 then
        .ok { input := t.1, output := t.2,
              append := append && is_exists fsys t.2 }
      else
        .error ⟨"Missing input file: " ++ t.1⟩)

/-- `cs::CompilerWrapper` from the configuration. -/
structure CompilerWrapper where
  executable : String
  flags_to_add : List String
  flags_to_remove : List String
deriving DecidableEq, Inhabited

/-- `cs::Content`: the content-filter section of the configuration. -/
structure Content where
  include_only_existing_source : Bool
  paths_to_include : List String
  paths_to_exclude : List String
deriving DecidableEq, Inhabited

/-- `cs::Format`: the output-format section of the configuration. -/
structure Format where
  command_as_array : Bool
  drop_output_field : Bool
deriving DecidableEq, Inhabited

/-- `cs::Output`: the output section of the configuration. -/
structure OutputSpec where
  format : Format
  content : Content
deriving DecidableEq, Inhabited

/-- `cs::Compilation`: the compilation section of the configuration. -/
structure Compilation where
  compilers_to_recognize : List CompilerWrapper
  compilers_to_exclude : List String
deriving DecidableEq, Inhabited

/-- `cs::Configuration`. -/
structure Configuration where
  output : OutputSpec
  compilation : Compilation
deriving DecidableEq, Inhabited

/-- `fs::path::is_absolute`, embedded over string paths: the path begins with
the root separator. -/
def is_absolute (path : String) : Bool :=
  match path.data with
  | [] => false
  | c :: _ => c == '/'

/-- `to_abspath` from Application.cc: leave absolute paths unchanged and
resolve relative ones against the given root. -/
def to_abspath (paths : List String) (root : String) : List String :=
  paths.map (fun path => if is_absolute path then path else root ++ "/" ++ path)

/-- `update_content` from Application.cc: when `run_checks` holds and the
current working directory is available, force `include_only_existing_source`
and rewrite the filter paths to absolute ones; otherwise return the content
unchanged. `cwd` embeds `sys::path::get_cwd()`. -/
def update_content (cwd : R String) (content : Content) (run_checks : Bool) : Content :=
  if run_checks then
    match cwd with
    | .ok root =>
        { include_only_existing_source := run_checks,
          paths_to_include := to_abspath content.paths_to_include root,
          paths_to_exclude := to_abspath content.paths_to_exclude root }
    | .error _ => content
  else content

/-- `compilers` from Application.cc: the values of `CC`, `CXX` and `FC`
present in the environment, in that order. -/
def compilers (environment : Env) : List String :=
  (environment "CC").toList ++ (environment "CXX").toList ++ (environment "FC").toList

/-- `update_compilers_to_recognize` from Application.cc: append each compiler
not already present as a wrapper executable, with empty flag lists. -/
def update_compilers_to_recognize
    (wrappers : List CompilerWrapper) (compilerList : List String) : List CompilerWrapper :=
  compilerList.foldl
    (fun ws compiler =>
      if ws.any (fun w => w.executable == compiler) then ws
      else ws ++ [{ executable := compiler, flags_to_add := [], flags_to_remove := [] }])
    wrappers

/-- `into_configuration` from Application.cc: load the configuration file when
the config flag is given (otherwise the default configuration), override the
content filter according to the effective `run_checks` value, and extend the
recognized compilers from the environment. `loadConfig` embeds
`ConfigurationSerializer::from_json`. -/
def into_configuration (cwd : R String) (loadConfig : String → R Configuration)
    (args : FlagsArguments) (environment : Env) : R Configuration :=
  let config : R Configuration :=
    match args.config with
    | .ok candidate => loadConfig candidate
    | .error _ => .ok default
  (config.map
    (fun cfg =>
      let run_checks := args.run_checks.unwrap_or cfg.output.content.include_only_existing_source
      let content := update_content cwd cfg.output.content run_checks
      { cfg with output := { cfg.output with content := content } })).map
    (fun cfg =>
      let recognized :=
        update_compilers_to_recognize cfg.compilation.compilers_to_recognize (compilers environment)
      { cfg with compilation := { cfg.compilation with compilers_to_recognize := recognized } })

/-! ### Application.cc: the transform loop and Command::execute -/

/-- `cs::Entry`: one compilation-database entry. -/
structure Entry where
  directory : String
  file : String
  arguments : List String
  output : Option String
deriving DecidableEq

/-- The semantic classification returned by `Build::recognize`, as a tagged
variant; `compilerCall` carries the entries `into_entries` would produce. -/
inductive Semantic where
  | notRecognized
  | queryCompiler
  | preprocess
  | compilerCall (entries : List Entry)
deriving DecidableEq

/-- One iteration of the `transform` loop: read the event, recognize it, and
on success of both accumulate the compiler-call entries; any error leaves the
accumulator unchanged. -/
def transform_step {ε : Type} (recognize : ε → R Semantic)
    (acc : Nat × List Entry) (event : R ε) : Nat × List Entry :=
  match event.bind recognize with
  | .ok (.compilerCall es) => (acc.1 + es.length, acc.2 ++ es)
  | .ok _ => acc
  | .error _ => acc

/-- `transform` from Application.cc: fold the step over the event sequence,
returning the produced count and the accumulated output entries. -/
def transform {ε : Type} (recognize : ε → R Semantic)
    (events : List (R ε)) : Nat × List Entry :=
  events.foldl (transform_step recognize) (0, [])

/-- `cs::Command`: the citnames command object. -/
structure Command where
  arguments_ : Arguments
  configuration_ : Configuration

/-- `EXIT_SUCCESS`. -/
def EXIT_SUCCESS : Int := 0

/-- `cs::Command::execute`: read the event log, transform it into entries,
on append read back the previous database content extending the entries, and
write the result; success maps to `EXIT_SUCCESS`. The external collaborators
are parameters: `reader_from` embeds `EventsDatabaseReader::from` (giving the
event sequence), `build` embeds `semantic::Build` construction from the
compilation configuration, `from_json` embeds `CompilationDatabase::from_json`
(returning the extended entry list and the old-entry count), and `to_json`
embeds `CompilationDatabase::to_json` (returning the written count). -/
def Command.execute {ε : Type}
    (reader_from : String → R (List (R ε)))
    (build : Compilation → ε → R Semantic)
    (from_json : String → List Entry → R (List Entry × Nat))
    (to_json : String → List Entry → R Nat)
    (self : Command) : R Int :=
  ((reader_from self.arguments_.input).map
      (fun events => transform (build self.configuration_.compilation) events)).bind
    (fun t =>
      (((if self.arguments_.append then
            (from_json self.arguments_.output t.2).map (fun r => (t.1 + r.2, r.1))
          else
            .ok t) : R (Nat × List Entry)).bind
        (fun q => (to_json self.arguments_.output q.2).map (fun _ => EXIT_SUCCESS))))

/-- `Application::command` from Application.cc: merge the validated arguments
with the configuration and construct the `Command`. -/
def Application.command (fsys : String → Bool) (cwd : R String)
    (loadConfig : String → R Configuration) (args : FlagsArguments)
    (environment : Env) : R Command :=
  (rmerge (into_arguments fsys args) (into_configuration cwd loadConfig args environment)).map
    (fun t => { arguments_ := t.1, configuration_ := t.2 })

/-! ### The database writer, modelled from the spec (Output.cc is not among
the shown sources). -/

/-- The natural key of an entry: the `(directory, file, arguments)` triple. -/
def entryKey (e : Entry) : String × String × List String :=
  (e.directory, e.file, e.arguments)

/-- Keep the first entry of each natural key, skipping keys already seen. -/
def dedupByKeyAux (seen : List (String × String × List String)) :
    List Entry → List Entry
  | [] => []
  | e :: rest =>
      if entryKey e ∈ seen then dedupByKeyAux seen rest
      else e :: dedupByKeyAux (entryKey e :: seen) rest

/-- Modelled from the spec: the writer unions entries by the natural key
`(directory, file, arguments)`; with the new entries listed first, keeping
the first occurrence of each key makes new entries override prior ones. -/
def dedupByKey (entries : List Entry) : List Entry :=
  dedupByKeyAux [] entries

/-- The writer's output order: by `(file, directory)`, lexicographically. -/
def entryLE (a b : Entry) : Prop :=
  a.file < b.file ∨ (a.file = b.file ∧ a.directory ≤ b.directory)

instance : DecidableRel entryLE :=
  fun a b =>
    inferInstanceAs (Decidable (a.file < b.file ∨ (a.file = b.file ∧ a.directory ≤ b.directory)))

instance : IsTotal Entry entryLE where
  total a b := by
    unfold entryLE
    rcases lt_trichotomy a.file b.file with h | h | h
    · exact Or.inl (Or.inl h)
    · rcases le_total a.directory b.directory with hd | hd
      · exact Or.inl (Or.inr ⟨h, hd⟩)
      · exact Or.inr (Or.inr ⟨h.symm, hd⟩)
    · exact Or.inr (Or.inl h)

instance : IsTrans Entry entryLE where
  trans a b c hab hbc := by
    unfold entryLE at hab hbc ⊢
    rcases hab with hab | ⟨hab, had⟩
    · rcases hbc with hbc | ⟨hbc, _⟩
      · exact Or.inl (hab.trans hbc)
      · exact Or.inl (hbc ▸ hab)
    · rcases hbc with hbc | ⟨hbc, hbd⟩
      · exact Or.inl (hab ▸ hbc)
      · exact Or.inr ⟨hab.trans hbc, had.trans hbd⟩

/-- Modelled from the spec: `CompilationDatabase::to_json` content — union by
the natural key with new entries (listed first) overriding prior ones, sorted
by `(file, directory)` for deterministic output. -/
def to_json_content (entries : List Entry) : List Entry :=
  List.insertionSort entryLE (dedupByKey entries)

/-- Modelled from the spec: the deterministic rendering of one entry in the
fixed key order `directory`, `arguments`, `file`, `output`. -/
def renderEntry (e : Entry) : String :=
  "directory=" ++ e.directory ++ ";arguments=" ++ joinPaths e.arguments
    ++ ";file=" ++ e.file ++ ";output=" ++ (e.output.getD "") ++ "\n"

/-- Modelled from the spec: the deterministic byte rendering of the database,
one entry after the other in list order. -/
def renderDatabase (entries : List Entry) : String :=
  String.join (entries.map renderEntry)

/-- The citnames pipeline content, end to end: the entries `transform`
accumulates from the event log, extended on append by the previous database
content, written through the modelled writer. -/
def run_citnames {ε : Type} (recognize : ε → R Semantic) (events : List (R ε))
    (previous : List Entry) (append : Bool) : List Entry :=
  let t := transform recognize events
  to_json_content (if append then t.2 ++ previous else t.2)

/-! ## Helper lemmas -/

theorem envSet_self (e : Env) (k v : String) : envSet e k v k = some v := by
  simp [envSet]

theorem envSet_ne (e : Env) (k v q : String) (h : q ≠ k) : envSet e k v q = e q := by
  simp [envSet, h]

theorem keep_front_form (item current : String) :
    ∃ rest, keep_front_in_path item current = item ++ rest := by
  unfold keep_front_in_path
  cases h : (current.splitOn ":").filter (fun s => s != item && s != "") with
  | nil => exact ⟨"", by simp [joinPaths]⟩
  | cons a t => exact ⟨":" ++ joinPaths (a :: t), by simp [joinPaths, String.append_assoc]⟩

theorem update_lookup (s : LibraryPreloadSession) (env : Env) :
    s.update env KEY_DESTINATION = some s.session_locator_
    ∧ s.update env KEY_REPORTER = some s.executor_
    ∧ s.update env GLIBC_PRELOAD_KEY =
        some (keep_front_in_path s.library_ ((env GLIBC_PRELOAD_KEY).getD ""))
    ∧ (s.verbose_ = true → s.update env KEY_VERBOSE = some "true")
    ∧ (s.verbose_ = false → s.update env KEY_VERBOSE = env KEY_VERBOSE)
    ∧ ∀ k, k ≠ KEY_VERBOSE → k ≠ KEY_DESTINATION → k ≠ KEY_REPORTER →
        k ≠ GLIBC_PRELOAD_KEY → s.update env k = env k := by
  have hDG : KEY_DESTINATION ≠ GLIBC_PRELOAD_KEY := by decide
  have hDR : KEY_DESTINATION ≠ KEY_REPORTER := by decide
  have hDV : KEY_DESTINATION ≠ KEY_VERBOSE := by decide
  have hRG : KEY_REPORTER ≠ GLIBC_PRELOAD_KEY := by decide
  have hRV : KEY_REPORTER ≠ KEY_VERBOSE := by decide
  have hGV : GLIBC_PRELOAD_KEY ≠ KEY_VERBOSE := by decide
  refine ⟨?_, ?_, ?_, ?_, ?_, ?_⟩
  · cases hv : s.verbose_ <;>
      simp [LibraryPreloadSession.update, hv, envSet, hDG, hDR, hDV]
  · cases hv : s.verbose_ <;>
      simp [LibraryPreloadSession.update, hv, envSet, hRG, hRV]
  · cases hv : s.verbose_ <;>
      simp [LibraryPreloadSession.update, hv, envSet, hRG.symm, hDG.symm, hGV]
  · intro hv
    simp [LibraryPreloadSession.update, hv, envSet, hDV.symm, hRV.symm, hGV.symm]
  · intro hv
    simp [LibraryPreloadSession.update, hv, envSet, hDV.symm, hRV.symm, hGV.symm]
  · intro k h1 h2 h3 h4
    cases hv : s.verbose_ <;>
      simp [LibraryPreloadSession.update, hv, envSet, h1, h2, h3, h4]

theorem transform_step_error {ε : Type} (recognize : ε → R Semantic)
    (acc : Nat × List Entry) (err : Err) :
    transform_step recognize acc (Except.error err) = acc := rfl

theorem transform_step_bad {ε : Type} (recognize : ε → R Semantic)
    (acc : Nat × List Entry) (event : ε) (err : Err)
    (h : recognize event = .error err) :
    transform_step recognize acc (Except.ok event) = acc := by
  unfold transform_step
  simp [Except.bind, h]

theorem transform_append {ε : Type} (recognize : ε → R Semantic) (xs l : List (R ε)) :
    transform recognize (xs ++ l)
      = l.foldl (transform_step recognize) (transform recognize xs) := by
  simp [transform, List.foldl_append]

/-! ## Claims -/

/-- C1: an event whose read fails, or whose recognition fails, is skipped by
the `transform` loop without aborting: removing such an event from the event
sequence leaves the accumulated count and output entries unchanged, so the
entries produced from the other events are still accumulated and no
recognizer error escapes `transform`. -/
theorem c1_recognizer_errors_skipped {ε : Type} (recognize : ε → R Semantic)
    (xs ys : List (R ε)) (err : Err) :
    transform recognize (xs ++ Except.error err :: ys) = transform recognize (xs ++ ys)
    ∧ ∀ event : ε, recognize event = .error err →
        transform recognize (xs ++ Except.ok event :: ys) = transform recognize (xs ++ ys) := by
  constructor
  · rw [transform_append, transform_append, List.foldl_cons, transform_step_error]
  · intro event h
    rw [transform_append, transform_append, List.foldl_cons,
      transform_step_bad recognize _ event err h]

/-- Witness for C1 at a concrete event list and recognizer. -/
theorem c1_witness :
    transform (fun _ : Nat => (Except.error ⟨"bad argv"⟩ : R Semantic)) [Except.ok 5]
      = transform (fun _ : Nat => (Except.error ⟨"bad argv"⟩ : R Semantic)) [] :=
  (c1_recognizer_errors_skipped (fun _ : Nat => (Except.error ⟨"bad argv"⟩ : R Semantic))
    [] [] ⟨"bad argv"⟩).2 5 rfl

/-- C3: when the parsed input path does not name an existing file,
`into_arguments` returns an error mentioning the missing input file, and
`Application::command` therefore constructs no `Command`. -/
theorem c3_missing_input (fsys : String → Bool) (args : FlagsArguments)
    (i o : String) (hi : args.input = .ok i) (ho : args.output = .ok o)
    (hmiss : fsys i = false) :
    into_arguments fsys args = .error ⟨"Missing input file: " ++ i⟩
    ∧ ∀ (cwd : R String) (loadConfig : String → R Configuration) (environment : Env),
        Application.command fsys cwd loadConfig args environment =
          .error ⟨"Missing input file: " ++ i⟩ := by
  have harg : into_arguments fsys args = .error ⟨"Missing input file: " ++ i⟩ := by
    simp [into_arguments, hi, ho, rmerge, is_exists, hmiss, Except.bind]
  refine ⟨harg, ?_⟩
  intro cwd loadConfig environment
  simp [Application.command, harg, rmerge, Except.map]

/-- Witness for C3 at a concrete argument set and filesystem. -/
theorem c3_witness :
    into_arguments (fun _ => false)
        ⟨.ok "events.db", .ok "compile_commands.json",
          .error ⟨"flag absent"⟩, .error ⟨"flag absent"⟩, .error ⟨"flag absent"⟩⟩
      = .error ⟨"Missing input file: events.db"⟩ :=
  (c3_missing_input (fun _ => false)
    ⟨.ok "events.db", .ok "compile_commands.json",
      .error ⟨"flag absent"⟩, .error ⟨"flag absent"⟩, .error ⟨"flag absent"⟩⟩
    "events.db" "compile_commands.json" rfl rfl rfl).1

/-- C4 counterexample: for a non-verbose session and an input environment that
already maps the verbose key to "true", `update` returns a map whose verbose
key is "true" although the session is not verbose, refuting the claimed
"if and only if". -/
theorem c4_counterexample :
    (LibraryPreloadSession.update ⟨false, "/usr/lib/libexec.so", "/usr/bin/wrapper", "/tmp/ic.sock"⟩
        (envSet (fun _ => none) KEY_VERBOSE "true")) KEY_VERBOSE = some "true"
    ∧ (⟨false, "/usr/lib/libexec.so", "/usr/bin/wrapper", "/tmp/ic.sock"⟩
        : LibraryPreloadSession).verbose_ = false := by
  constructor
  · decide
  · rfl

/-- C4 (amended): `update` returns a map in which the session-locator key
holds the session locator, the reporter key holds the executor path, the
preload key holds the preload library kept at the front of its previous
value, and the verbose key is set to "true" when the session is verbose and
keeps its previous value otherwise. -/
theorem c4_update_amended (s : LibraryPreloadSession) (env : Env) :
    s.update env KEY_DESTINATION = some s.session_locator_
    ∧ s.update env KEY_REPORTER = some s.executor_
    ∧ s.update env GLIBC_PRELOAD_KEY =
        some (keep_front_in_path s.library_ ((env GLIBC_PRELOAD_KEY).getD ""))
    ∧ (∃ rest, keep_front_in_path s.library_ ((env GLIBC_PRELOAD_KEY).getD "")
        = s.library_ ++ rest)
    ∧ (s.verbose_ = true → s.update env KEY_VERBOSE = some "true")
    ∧ (s.verbose_ = false → s.update env KEY_VERBOSE = env KEY_VERBOSE) := by
  obtain ⟨h1, h2, h3, h4, h5, _⟩ := update_lookup s env
  exact ⟨h1, h2, h3, keep_front_form s.library_ ((env GLIBC_PRELOAD_KEY).getD ""), h4, h5⟩

/-- Witness for C4 at a concrete verbose session and empty environment. -/
theorem c4_witness :
    ((⟨true, "/l.so", "/e", "/s"⟩ : LibraryPreloadSession).update (fun _ => none))
        KEY_DESTINATION = some "/s"
    ∧ ((⟨true, "/l.so", "/e", "/s"⟩ : LibraryPreloadSession).update (fun _ => none))
        KEY_VERBOSE = some "true" :=
  ⟨(c4_update_amended ⟨true, "/l.so", "/e", "/s"⟩ (fun _ => none)).1,
   (c4_update_amended ⟨true, "/l.so", "/e", "/s"⟩ (fun _ => none)).2.2.2.2.1 rfl⟩

/-- C5: `resolve` always returns `Ok` and changes only the environment field
of the execution, and `update` leaves every environment entry whose key is
not the verbose, session-locator, reporter, or `LD_PRELOAD` key with its
original value. -/
theorem c5_resolve_frame (s : LibraryPreloadSession) (e : Execution) :
    s.resolve e = .ok { executable := e.executable, arguments := e.arguments,
                        working_dir := e.working_dir,
                        environment := s.update e.environment }
    ∧ ∀ (env : Env) (k : String), k ≠ KEY_VERBOSE → k ≠ KEY_DESTINATION →
        k ≠ KEY_REPORTER → k ≠ GLIBC_PRELOAD_KEY → s.update env k = env k := by
  constructor
  · rfl
  · intro env k h1 h2 h3 h4
    exact (update_lookup s env).2.2.2.2.2 k h1 h2 h3 h4

/-- Witness for C5: a foreign key (`PATH`) keeps its value through `update`. -/
theorem c5_witness :
    ((⟨false, "/l.so", "/e", "/s"⟩ : LibraryPreloadSession).update
        (fun _ => some "/usr/bin")) "PATH" = some "/usr/bin" :=
  (c5_resolve_frame ⟨false, "/l.so", "/e", "/s"⟩
      ⟨"/bin/cc", [], "/", fun _ => none⟩).2 (fun _ => some "/usr/bin") "PATH"
    (by decide) (by decide) (by decide) (by decide)

/-- C2: `Command::execute` returns the success exit code 0 exactly when
reading the event log succeeds, merging succeeds when in append mode, and
writing the output succeeds; in every other case it returns an error. -/
theorem c2_execute_success_iff {ε : Type}
    (reader_from : String → R (List (R ε)))
    (build : Compilation → ε → R Semantic)
    (from_json : String → List Entry → R (List Entry × Nat))
    (to_json : String → List Entry → R Nat)
    (self : Command) :
    (Command.execute reader_from build from_json to_json self = .ok 0 ↔
      ∃ events, reader_from self.arguments_.input = .ok events ∧
        (if self.arguments_.append then
          ∃ r, from_json self.arguments_.output
                (transform (build self.configuration_.compilation) events).2 = .ok r ∧
              ∃ n, to_json self.arguments_.output r.1 = .ok n
        else
          ∃ n, to_json self.arguments_.output
                (transform (build self.configuration_.compilation) events).2 = .ok n))
    ∧ (Command.execute reader_from build from_json to_json self = .ok 0
        ∨ ∃ e2, Command.execute reader_from build from_json to_json self = .error e2) := by
  cases hre : reader_from self.arguments_.input with
  | error err =>
    constructor
    · simp [Command.execute, hre, Except.map, Except.bind]
    · exact Or.inr ⟨err, by simp [Command.execute, hre, Except.map, Except.bind]⟩
  | ok events =>
    cases happ : self.arguments_.append with
    | false =>
      cases htj : to_json self.arguments_.output
          (transform (build self.configuration_.compilation) events).2 with
      | error e2 =>
        constructor
        · simp [Command.execute, hre, happ, htj, Except.map, Except.bind]
        · exact Or.inr ⟨e2, by
            simp [Command.execute, hre, happ, htj, Except.map, Except.bind]⟩
      | ok n =>
        constructor
        · simp [Command.execute, hre, happ, htj, Except.map, Except.bind, EXIT_SUCCESS]
        · exact Or.inl (by
            simp [Command.execute, hre, happ, htj, Except.map, Except.bind, EXIT_SUCCESS])
    | true =>
      cases hfj : from_json self.arguments_.output
          (transform (build self.configuration_.compilation) events).2 with
      | error e2 =>
        constructor
        · simp [Command.execute, hre, happ, hfj, Except.map, Except.bind]
        · exact Or.inr ⟨e2, by
            simp [Command.execute, hre, happ, hfj, Except.map, Except.bind]⟩
      | ok r =>
        cases htj : to_json self.arguments_.output r.1 with
        | error e2 =>
          constructor
          · simp only [Command.execute, hre, happ, hfj, Except.map, Except.bind]
            simp [htj]
            rintro x x1 hx x2 h2
            have hr : r = (x, x1) := Except.ok.inj (hfj.symm.trans hx)
            rw [hr] at htj
            exact absurd (htj.symm.trans h2) (by simp)
          · exact Or.inr ⟨e2, by
              simp [Command.execute, hre, happ, hfj, htj, Except.map, Except.bind]⟩
        | ok n =>
          constructor
          · simp [Command.execute, hre, happ, hfj, htj, Except.map, Except.bind, EXIT_SUCCESS]
            exact ⟨r.1, ⟨r.2, rfl⟩, n, htj⟩
          · exact Or.inl (by
              simp [Command.execute, hre, happ, hfj, htj, Except.map, Except.bind, EXIT_SUCCESS])

theorem ucr_extends (compilerList : List String) :
    ∀ ws : List CompilerWrapper,
      ∃ extras, update_compilers_to_recognize ws compilerList = ws ++ extras
        ∧ ∀ w ∈ extras, w.flags_to_add = [] ∧ w.flags_to_remove = []
            ∧ w.executable ∈ compilerList
            ∧ ∀ w0 ∈ ws, w0.executable ≠ w.executable := by
  induction compilerList with
  | nil =>
    intro ws
    exact ⟨[], by simp [update_compilers_to_recognize], by simp⟩
  | cons c rest ih =>
    intro ws
    cases hany : ws.any (fun w => w.executable == c) with
    | true =>
      have hstep : update_compilers_to_recognize ws (c :: rest)
          = update_compilers_to_recognize ws rest := by
        have hexists : ∃ x ∈ ws, x.executable = c := by simpa using hany
        simp [update_compilers_to_recognize, hexists]
      obtain ⟨extras, heq, hprop⟩ := ih ws
      refine ⟨extras, by rw [hstep, heq], ?_⟩
      intro w hw
      exact ⟨(hprop w hw).1, (hprop w hw).2.1,
        List.mem_cons_of_mem c (hprop w hw).2.2.1, (hprop w hw).2.2.2⟩
    | false =>
      have hstep : update_compilers_to_recognize ws (c :: rest)
          = update_compilers_to_recognize
              (ws ++ [{ executable := c, flags_to_add := [], flags_to_remove := [] }]) rest := by
        have hnone : ¬∃ x ∈ ws, x.executable = c := by simpa using hany
        simp [update_compilers_to_recognize, hnone]
      obtain ⟨extras, heq, hprop⟩ :=
        ih (ws ++ [{ executable := c, flags_to_add := [], flags_to_remove := [] }])
      refine ⟨{ executable := c, flags_to_add := [], flags_to_remove := [] } :: extras,
        by rw [hstep, heq, List.append_assoc, List.singleton_append], ?_⟩
      intro w hw
      rcases List.mem_cons.mp hw with rfl | hw
      · refine ⟨rfl, rfl, List.mem_cons_self c rest, ?_⟩
        intro w0 hw0
        have := List.any_eq_false.mp hany w0 hw0
        simpa using this
      · refine ⟨(hprop w hw).1, (hprop w hw).2.1,
          List.mem_cons_of_mem c (hprop w hw).2.2.1, ?_⟩
        intro w0 hw0
        exact (hprop w hw).2.2.2 w0 (List.mem_append_left _ hw0)

theorem ucr_covers (compilerList : List String) :
    ∀ (ws : List CompilerWrapper) (c : String), c ∈ compilerList →
      ∃ w, w ∈ update_compilers_to_recognize ws compilerList ∧ w.executable = c := by
  induction compilerList with
  | nil =>
    intro ws c hc
    cases hc
  | cons a rest ih =>
    intro ws c hc
    cases hany : ws.any (fun w => w.executable == a) with
    | true =>
      have hstep : update_compilers_to_recognize ws (a :: rest)
          = update_compilers_to_recognize ws rest := by
        have hexists : ∃ x ∈ ws, x.executable = a := by simpa using hany
        simp [update_compilers_to_recognize, hexists]
      rcases List.mem_cons.mp hc with rfl | hc
      · obtain ⟨w, hw, hbeq⟩ := List.any_eq_true.mp hany
        obtain ⟨extras, heq, _⟩ := ucr_extends rest ws
        refine ⟨w, ?_, by simpa using hbeq⟩
        rw [hstep, heq]
        exact List.mem_append_left _ hw
      · rw [hstep]
        exact ih ws c hc
    | false =>
      have hstep : update_compilers_to_recognize ws (a :: rest)
          = update_compilers_to_recognize
              (ws ++ [{ executable := a, flags_to_add := [], flags_to_remove := [] }]) rest := by
        have hnone : ¬∃ x ∈ ws, x.executable = a := by simpa using hany
        simp [update_compilers_to_recognize, hnone]
      rcases List.mem_cons.mp hc with rfl | hc
      · obtain ⟨extras, heq, _⟩ :=
          ucr_extends rest (ws ++ [{ executable := c, flags_to_add := [], flags_to_remove := [] }])
        refine ⟨{ executable := c, flags_to_add := [], flags_to_remove := [] }, ?_, rfl⟩
        rw [hstep, heq]
        exact List.mem_append_left _ (List.mem_append_right _ (by simp))
      · rw [hstep]
        exact ih (ws ++ [{ executable := a, flags_to_add := [], flags_to_remove := [] }]) c hc

/-- C6: `into_configuration` extends the configured `compilers_to_recognize`
list with the values of `CC`, `CXX` and `FC` present in the environment, each
appended with empty flag lists; a path already present as a recognized
compiler's executable is not added a second time, so the configured entry for
that path (and its flags) is preserved verbatim. -/
theorem c6_env_compilers (ws : List CompilerWrapper) (environment : Env) :
    (∀ v, (environment "CC" = some v ∨ environment "CXX" = some v
            ∨ environment "FC" = some v) → v ∈ compilers environment)
    ∧ (∃ extras, update_compilers_to_recognize ws (compilers environment) = ws ++ extras
        ∧ ∀ w ∈ extras, w.flags_to_add = [] ∧ w.flags_to_remove = []
            ∧ w.executable ∈ compilers environment
            ∧ ∀ w0 ∈ ws, w0.executable ≠ w.executable)
    ∧ (∀ c ∈ compilers environment,
        ∃ w, w ∈ update_compilers_to_recognize ws (compilers environment)
          ∧ w.executable = c)
    ∧ (∀ c, (∃ w0 ∈ ws, w0.executable = c) →
        (update_compilers_to_recognize ws (compilers environment)).filter
            (fun w => w.executable == c)
          = ws.filter (fun w => w.executable == c))
    ∧ (∀ (cwd : R String) (loadConfig : String → R Configuration) (args : FlagsArguments)
        (c : String) (cfg : Configuration), args.config = .ok c → loadConfig c = .ok cfg →
        ∃ cfg2, into_configuration cwd loadConfig args environment = .ok cfg2
          ∧ cfg2.compilation.compilers_to_recognize
              = update_compilers_to_recognize cfg.compilation.compilers_to_recognize
                  (compilers environment)) := by
  refine ⟨?_, ucr_extends (compilers environment) ws, ucr_covers (compilers environment) ws, ?_, ?_⟩
  · intro v h
    rcases h with h | h | h <;> simp [compilers, h]
  · intro c hc
    obtain ⟨w0, hw0, hex⟩ := hc
    obtain ⟨extras, heq, hprop⟩ := ucr_extends (compilers environment) ws
    rw [heq, List.filter_append]
    have hnil : extras.filter (fun w => w.executable == c) = [] := by
      refine List.filter_eq_nil_iff.mpr ?_
      intro w hw
      have hne := (hprop w hw).2.2.2 w0 hw0
      simp only [beq_iff_eq]
      intro hh
      exact hne (hex.trans hh.symm)
    rw [hnil, List.append_nil]
  · intro cwd loadConfig args c cfg hc hl
    simp only [into_configuration, hc, hl, Except.map]
    exact ⟨_, rfl, rfl⟩

/-- Witness for C6: with `CC` set, a wrapper for its value is recognized. -/
theorem c6_witness :
    ∃ w, w ∈ update_compilers_to_recognize
        ([⟨"/usr/bin/g++", [], []⟩] : List CompilerWrapper)
        (compilers (fun k => if k = "CC" then some "/usr/bin/gcc" else none))
      ∧ w.executable = "/usr/bin/gcc" :=
  (c6_env_compilers ([⟨"/usr/bin/g++", [], []⟩] : List CompilerWrapper)
    (fun k => if k = "CC" then some "/usr/bin/gcc" else none)).2.2.1
    "/usr/bin/gcc" (by decide)

theorem dedupAux_subset :
    ∀ (l : List Entry) (seen : List (String × String × List String)) (x : Entry),
      x ∈ dedupByKeyAux seen l → x ∈ l := by
  intro l
  induction l with
  | nil =>
    intro seen x hx
    cases hx
  | cons e rest ih =>
    intro seen x hx
    by_cases h : entryKey e ∈ seen
    · simp only [dedupByKeyAux, if_pos h] at hx
      exact List.mem_cons_of_mem e (ih seen x hx)
    · simp only [dedupByKeyAux, if_neg h] at hx
      rcases List.mem_cons.mp hx with rfl | hx
      · exact List.mem_cons_self x rest
      · exact List.mem_cons_of_mem e (ih (entryKey e :: seen) x hx)

theorem dedupAux_notmem_seen :
    ∀ (l : List Entry) (seen : List (String × String × List String)) (x : Entry),
      x ∈ dedupByKeyAux seen l → entryKey x ∉ seen := by
  intro l
  induction l with
  | nil =>
    intro seen x hx
    cases hx
  | cons e rest ih =>
    intro seen x hx
    by_cases h : entryKey e ∈ seen
    · simp only [dedupByKeyAux, if_pos h] at hx
      exact ih seen x hx
    · simp only [dedupByKeyAux, if_neg h] at hx
      rcases List.mem_cons.mp hx with rfl | hx
      · exact h
      · intro hs
        exact ih (entryKey e :: seen) x hx (List.mem_cons_of_mem _ hs)

theorem dedupAux_pairwise :
    ∀ (l : List Entry) (seen : List (String × String × List String)),
      List.Pairwise (fun a b => entryKey a ≠ entryKey b) (dedupByKeyAux seen l) := by
  intro l
  induction l with
  | nil =>
    intro seen
    simp [dedupByKeyAux]
  | cons e rest ih =>
    intro seen
    by_cases h : entryKey e ∈ seen
    · simp only [dedupByKeyAux, if_pos h]
      exact ih seen
    · simp only [dedupByKeyAux, if_neg h]
      refine List.Pairwise.cons ?_ (ih (entryKey e :: seen))
      intro b hb he
      have hnb := dedupAux_notmem_seen rest (entryKey e :: seen) b hb
      exact hnb (by rw [← he]; exact List.mem_cons_self _ _)

theorem dedupAux_covers :
    ∀ (l : List Entry) (seen : List (String × String × List String)) (x : Entry),
      x ∈ l →
      entryKey x ∈ seen ∨ ∃ y, y ∈ dedupByKeyAux seen l ∧ entryKey y = entryKey x := by
  intro l
  induction l with
  | nil =>
    intro seen x hx
    cases hx
  | cons e rest ih =>
    intro seen x hx
    by_cases h : entryKey e ∈ seen
    · simp only [dedupByKeyAux, if_pos h]
      rcases List.mem_cons.mp hx with rfl | hx
      · exact Or.inl h
      · exact ih seen x hx
    · simp only [dedupByKeyAux, if_neg h]
      rcases List.mem_cons.mp hx with rfl | hx
      · exact Or.inr ⟨x, List.mem_cons_self _ _, rfl⟩
      · rcases ih (entryKey e :: seen) x hx with hs | ⟨y, hy, hk⟩
        · rcases List.mem_cons.mp hs with heq | hs
          · exact Or.inr ⟨e, List.mem_cons_self _ _, heq.symm⟩
          · exact Or.inl hs
        · exact Or.inr ⟨y, List.mem_cons_of_mem e hy, hk⟩

theorem dedupAux_first :
    ∀ (l1 l2 : List Entry) (seen : List (String × String × List String)) (x : Entry),
      x ∈ dedupByKeyAux seen (l1 ++ l2) →
      (∃ n ∈ l1, entryKey n = entryKey x) → x ∈ l1 := by
  intro l1
  induction l1 with
  | nil =>
    intro l2 seen x hx hn
    obtain ⟨n, hn, _⟩ := hn
    cases hn
  | cons a t ih =>
    intro l2 seen x hx hn
    obtain ⟨n, hnmem, hnkey⟩ := hn
    by_cases h : entryKey a ∈ seen
    · simp only [List.cons_append, dedupByKeyAux, if_pos h] at hx
      rcases List.mem_cons.mp hnmem with rfl | hnt
      · have hns := dedupAux_notmem_seen _ _ _ hx
        exact absurd (hnkey ▸ h) hns
      · exact List.mem_cons_of_mem a (ih l2 seen x hx ⟨n, hnt, hnkey⟩)
    · simp only [List.cons_append, dedupByKeyAux, if_neg h] at hx
      rcases List.mem_cons.mp hx with rfl | hx
      · exact List.mem_cons_self _ _
      · rcases List.mem_cons.mp hnmem with rfl | hnt
        · have hns := dedupAux_notmem_seen _ _ _ hx
          exact absurd (by rw [← hnkey]; exact List.mem_cons_self _ _) hns
        · exact List.mem_cons_of_mem a (ih l2 (entryKey a :: seen) x hx ⟨n, hnt, hnkey⟩)

theorem dedupAux_of_pairwise :
    ∀ (l : List Entry) (seen : List (String × String × List String)),
      (∀ x ∈ l, entryKey x ∉ seen) →
      List.Pairwise (fun a b => entryKey a ≠ entryKey b) l →
      dedupByKeyAux seen l = l := by
  intro l
  induction l with
  | nil =>
    intro seen _ _
    rfl
  | cons e rest ih =>
    intro seen hseen hpw
    have h : entryKey e ∉ seen := hseen e (List.mem_cons_self _ _)
    simp only [dedupByKeyAux, if_neg h]
    refine congrArg (e :: ·) (ih (entryKey e :: seen) ?_ (List.pairwise_cons.mp hpw).2)
    intro x hx hmem
    rcases List.mem_cons.mp hmem with heq | hs
    · exact (List.pairwise_cons.mp hpw).1 x hx heq.symm
    · exact hseen x (List.mem_cons_of_mem e hx) hs

theorem to_json_content_pairwise (l : List Entry) :
    List.Pairwise (fun a b => entryKey a ≠ entryKey b) (to_json_content l) := by
  have hperm := List.perm_insertionSort entryLE (dedupByKey l)
  exact (List.Perm.pairwise_iff (fun h => h.symm) hperm).mpr (dedupAux_pairwise l [])

theorem to_json_content_sorted (l : List Entry) :
    List.Sorted entryLE (to_json_content l) :=
  List.sorted_insertionSort entryLE (dedupByKey l)

theorem to_json_content_idem (l : List Entry) :
    to_json_content (to_json_content l) = to_json_content l := by
  have h1 : dedupByKey (to_json_content l) = to_json_content l :=
    dedupAux_of_pairwise (to_json_content l) []
      (fun x _ hx => absurd hx (List.not_mem_nil _)) (to_json_content_pairwise l)
  calc to_json_content (to_json_content l)
      = List.insertionSort entryLE (dedupByKey (to_json_content l)) := rfl
    _ = List.insertionSort entryLE (to_json_content l) := by rw [h1]
    _ = to_json_content l := List.Sorted.insertionSort_eq (to_json_content_sorted l)

/-- C7: the written database contains no two entries with the same
`(directory, file, arguments)` triple; the written content is the union of
the new and the prior entries by that key, new entries overriding prior ones
on collision, and is sorted by `(file, directory)`. -/
theorem c7_write_unions_by_key (new old : List Entry) :
    List.Pairwise (fun a b => entryKey a ≠ entryKey b) (to_json_content (new ++ old))
    ∧ List.Sorted entryLE (to_json_content (new ++ old))
    ∧ (∀ e ∈ to_json_content (new ++ old), e ∈ new ++ old)
    ∧ (∀ e ∈ new ++ old, ∃ e2 ∈ to_json_content (new ++ old), entryKey e2 = entryKey e)
    ∧ (∀ e ∈ to_json_content (new ++ old),
        (∃ n ∈ new, entryKey n = entryKey e) → e ∈ new) := by
  refine ⟨to_json_content_pairwise _, to_json_content_sorted _, ?_, ?_, ?_⟩
  · intro e he
    exact dedupAux_subset _ [] e ((List.mem_insertionSort entryLE).mp he)
  · intro e he
    rcases dedupAux_covers (new ++ old) [] e he with hs | ⟨y, hy, hk⟩
    · exact absurd hs (List.not_mem_nil _)
    · exact ⟨y, (List.mem_insertionSort entryLE).mpr hy, hk⟩
  · intro e he hn
    exact dedupAux_first new old [] e ((List.mem_insertionSort entryLE).mp he) hn

/-- Witness for C7: a new entry overrides the prior entry with the same key
(the prior one differing only in its output field). -/
theorem c7_witness :
    (⟨"/a", "f.c", ["cc"], none⟩ : Entry) ∈
      ([⟨"/a", "f.c", ["cc"], none⟩] : List Entry) :=
  (c7_write_unions_by_key ([⟨"/a", "f.c", ["cc"], none⟩] : List Entry)
      ([⟨"/a", "f.c", ["cc"], some "f.o"⟩] : List Entry)).2.2.2.2
    ⟨"/a", "f.c", ["cc"], none⟩ (by decide)
    ⟨⟨"/a", "f.c", ["cc"], none⟩, by decide, rfl⟩

/-- C8: the citnames pipeline is deterministic: with no append, the produced
database content and its byte rendering depend only on the event log and the
recognizer, not on any pre-existing database state. -/
theorem c8_deterministic {ε : Type} (recognize : ε → R Semantic)
    (events : List (R ε)) (db1 db2 : List Entry) :
    renderDatabase (run_citnames recognize events db1 false)
      = renderDatabase (run_citnames recognize events db2 false)
    ∧ run_citnames recognize events db1 false = run_citnames recognize events db2 false :=
  ⟨rfl, rfl⟩

/-- C9: appending an event log that yields zero entries onto an existing
database (itself the output of a previous write) leaves the database content
and its byte rendering identical. -/
theorem c9_append_empty_idem {ε : Type} (recognize : ε → R Semantic)
    (events : List (R ε)) (l0 previous : List Entry)
    (hnone : (transform recognize events).2 = [])
    (hprev : previous = to_json_content l0) :
    run_citnames recognize events previous true = previous
    ∧ renderDatabase (run_citnames recognize events previous true)
        = renderDatabase previous := by
  have hrun : run_citnames recognize events previous true = previous := by
    show to_json_content
        (if true = true then (transform recognize events).2 ++ previous
          else (transform recognize events).2) = previous
    rw [if_pos rfl, hnone, List.nil_append, hprev, to_json_content_idem]
  exact ⟨hrun, by rw [hrun]⟩

/-- Witness for C9 at a concrete one-entry database and empty event log. -/
theorem c9_witness :
    run_citnames (fun _ : Nat => (Except.error ⟨"unused"⟩ : R Semantic)) []
        ([⟨"/a", "f.c", ["cc"], none⟩] : List Entry) true
      = ([⟨"/a", "f.c", ["cc"], none⟩] : List Entry) :=
  (c9_append_empty_idem (fun _ : Nat => (Except.error ⟨"unused"⟩ : R Semantic)) []
    ([⟨"/a", "f.c", ["cc"], none⟩] : List Entry)
    ([⟨"/a", "f.c", ["cc"], none⟩] : List Entry) rfl (by decide)).1

/-- C10: the effective `include_only_existing_source` value passed to
`update_content` is the `--run-checks` flag when given and the configured
value otherwise; when it is set (and the working directory is available) the
content filter's relative paths are rewritten to absolute ones against the
working directory with absolute paths unchanged, and when it is not set the
content filter is returned unchanged; the effective `append` flag is the
parsed flag conjoined with the existence of the output file, so `--append`
on a missing output degrades to overwrite. -/
theorem c10_run_checks_and_append (root : String) (content : Content) :
    update_content (.ok root) content true =
      { include_only_existing_source := true,
        paths_to_include := to_abspath content.paths_to_include root,
        paths_to_exclude := to_abspath content.paths_to_exclude root }
    ∧ (∀ cwd : R String, update_content cwd content false = content)
    ∧ (∀ (paths : List String) (p : String), p ∈ paths → is_absolute p = true →
        p ∈ to_abspath paths root)
    ∧ (∀ (paths : List String) (p : String), p ∈ paths → is_absolute p = false →
        root ++ "/" ++ p ∈ to_abspath paths root)
    ∧ (is_absolute root = true → ∀ (paths : List String) (q : String),
        q ∈ to_abspath paths root → is_absolute q = true)
    ∧ (∀ (cwd : R String) (loadConfig : String → R Configuration) (args : FlagsArguments)
        (environment : Env) (c : String) (cfg : Configuration),
        args.config = .ok c → loadConfig c = .ok cfg →
        ∃ cfg2, into_configuration cwd loadConfig args environment = .ok cfg2
          ∧ cfg2.output.content = update_content cwd cfg.output.content
              (args.run_checks.unwrap_or cfg.output.content.include_only_existing_source))
    ∧ (∀ (fsys : String → Bool) (args : FlagsArguments) (a : Arguments),
        into_arguments fsys args = .ok a →
          a.append = (args.append.unwrap_or false && fsys a.output)
          ∧ (fsys a.output = false → a.append = false)) := by
  refine ⟨rfl, fun _ => rfl, ?_, ?_, ?_, ?_, ?_⟩
  · intro paths p hp habs
    exact List.mem_map.mpr ⟨p, hp, by simp [habs]⟩
  · intro paths p hp habs
    exact List.mem_map.mpr ⟨p, hp, by simp [habs]⟩
  · intro hroot paths q hq
    obtain ⟨p, hp, rfl⟩ := List.mem_map.mp hq
    by_cases habs : is_absolute p
    · rw [if_pos habs]
      exact habs
    · rw [if_neg habs]
      cases hd : root.data with
      | nil => simp [is_absolute, hd] at hroot
      | cons c cs =>
        simp [is_absolute, hd] at hroot
        simp [is_absolute, String.data_append, hd, hroot]
  · intro cwd loadConfig args environment c cfg hc hl
    simp only [into_configuration, hc, hl, Except.map]
    exact ⟨_, rfl, rfl⟩
  · intro fsys args a h
    cases hin : args.input with
    | error e =>
      simp [into_arguments, hin, rmerge, Except.bind] at h
    | ok i =>
      cases hout : args.output with
      | error e =>
        simp [into_arguments, hin, hout, rmerge, Except.bind] at h
      | ok o =>
        cases hex : fsys i with
        | false =>
          simp [into_arguments, hin, hout, rmerge, Except.bind, is_exists, hex] at h
        | true =>
          simp [into_arguments, hin, hout, rmerge, Except.bind, is_exists, hex] at h
          subst h
          exact ⟨rfl, fun hf => by simp [hf]⟩

/-- Witness for C10: the config value is used when the flag is absent, and
`--append` with a missing output file degrades to overwrite. -/
theorem c10_witness :
    (∃ cfg2, into_configuration (.ok "/work") (fun _ => .ok default)
        ⟨.ok "in", .ok "out", .ok true, .ok "cfg.json", .error ⟨"absent"⟩⟩
        (fun _ => none) = .ok cfg2
      ∧ cfg2.output.content = update_content (.ok "/work")
          (default : Configuration).output.content
          (R.unwrap_or (Except.error ⟨"absent"⟩ : R Bool)
            (default : Configuration).output.content.include_only_existing_source))
    ∧ (⟨"in", "out", false⟩ : Arguments).append = false :=
  ⟨(c10_run_checks_and_append "/work" default).2.2.2.2.2.1 (.ok "/work")
      (fun _ => .ok default)
      ⟨.ok "in", .ok "out", .ok true, .ok "cfg.json", .error ⟨"absent"⟩⟩
      (fun _ => none) "cfg.json" default rfl rfl,
   ((c10_run_checks_and_append "/work" default).2.2.2.2.2.2 (fun p => p == "in")
      ⟨.ok "in", .ok "out", .ok true, .ok "cfg.json", .error ⟨"absent"⟩⟩
      ⟨"in", "out", false⟩ rfl).2 rfl⟩

end Bear
